import Mathlib

/-!
Verification of the NMS postprocessing core of a YOLOv4 detector
(`utilities/nms.py`): the dispatcher `run_nms_inplace`, the greedy
suppressor `greedy_nms_inplace`, and the geometric primitive `bbox_iou`.

The prediction buffer is modelled as a list of detection records.  Each
record holds the four center-form box fields `(tx, ty, tw, th)` (buffer
columns `YOLO_TX..YOLO_TH`, i.e. 0..3), the objectness column (index 4,
untouched by suppression) and the tail of class scores
(columns `YOLO_CLASS_START..`).  Scores and coordinates are rationals,
an exact stand-in for the float tensor entries.
-/

/-- A corner-form bounding box `(x1, y1, x2, y2)`, the layout produced by
the `bboxes[..., BBOX_X1..BBOX_Y2]` tensor in `greedy_nms_inplace`. -/
structure Box where
  x1 : ℚ
  y1 : ℚ
  x2 : ℚ
  y2 : ℚ
deriving DecidableEq, Repr

/-- One row of the prediction buffer: center-form box attributes
`(tx, ty, tw, th)`, the objectness column, and the class-score tail. -/
structure Detection where
  tx : ℚ
  ty : ℚ
  tw : ℚ
  th : ℚ
  obj : ℚ
  classes : List ℚ
deriving DecidableEq, Repr

instance : Inhabited Detection := ⟨⟨0, 0, 0, 0, 0, []⟩⟩

/-- Center-form to corner-form conversion, as computed once at the top of
`greedy_nms_inplace`: `half_w = tw/2`, `half_h = th/2`,
`x1 = tx - half_w`, `y1 = ty - half_h`, `x2 = tx + half_w`,
`y2 = ty + half_h`.  The box attributes are never written by suppression,
so computing the corner box on demand agrees with the source's single
precomputation. -/
def toBox (p : Detection) : Box :=
  { x1 := p.tx - p.tw / 2
    y1 := p.ty - p.th / 2
    x2 := p.tx + p.tw / 2
    y2 := p.ty + p.th / 2 }

/-- Elementwise IOU of two corner-form boxes, following `bbox_iou`:
intersection corners by max/min, width and height clamped to at least 0,
`iou = interArea / (areaA + areaB - interArea)`.  (Rational division by
zero yields 0 in Lean; the source leaves a zero union area undefined, and
every claim about IOU values assumes a non-degenerate configuration.) -/
def bbox_iou (a b : Box) : ℚ :=
  let xA := max a.x1 b.x1
  let yA := max a.y1 b.y1
  let xB := min a.x2 b.x2
  let yB := min a.y2 b.y2
  let interArea := max (xB - xA) 0 * max (yB - yA) 0
  let areaA := (a.x2 - a.x1) * (a.y2 - a.y1)
  let areaB := (b.x2 - b.x1) * (b.y2 - b.y1)
  interArea / (areaA + areaB - interArea)

/-- `class_zero_a = class_a < class_b_thresh`: the per-class comparison
mask of the snapshot row `a` (box `i`) against one later row `cj`. -/
def loseMask (a cj : List ℚ) : List Bool :=
  List.zipWith (fun x y => decide (x < y)) a cj

/-- The update of one overlapping later row `cj` against the snapshot row
`a`: where `a < cj` the entry is kept (`class_zero_a` true there, so
`class_zero_b` false), otherwise it is zeroed (`class_b[zero_mask_b] = 0`). -/
def suppB (a cj : List ℚ) : List ℚ :=
  List.zipWith (fun x y => if x < y then y else 0) a cj

/-- Pointwise disjunction of two class masks. -/
def maskOr (m1 m2 : List Bool) : List Bool :=
  List.zipWith or m1 m2

/-- `class_a[mask] = 0`: zero the entries of `a` selected by `m`. -/
def applyMask (a : List ℚ) (m : List Bool) : List ℚ :=
  List.zipWith (fun x b => if b then 0 else x) a m

/-- The accumulated zeroing mask for row `i` in one outer iteration:
`class_a[class_zero_a] = 0` writes through the expanded view of
`class_probs[i]`, so class `c` of row `i` is zeroed exactly when some
later row `q` with `bbox_iou > nms_thresh` satisfies
`a[c] < q.classes[c]`.  All comparisons use the snapshot `a` taken before
the iteration's writes. -/
def maskOfRest (t : ℚ) (bi : Box) (a : List ℚ) : List Detection → List Bool
  | [] => a.map (fun _ => false)
  | q :: rest =>
      if bbox_iou bi (toBox q) > t then
        maskOr (loseMask a q.classes) (maskOfRest t bi a rest)
      else
        maskOfRest t bi a rest

/-- One outer iteration's effect on the rows after `i`
(`class_b[zero_mask_b] = 0`): rows whose IOU with box `i` exceeds the
threshold are updated by `suppB` against the snapshot `a`; the others are
untouched. -/
def stepRest (t : ℚ) (bi : Box) (a : List ℚ) (rest : List Detection) : List Detection :=
  rest.map (fun q =>
    if bbox_iou bi (toBox q) > t then { q with classes := suppB a q.classes } else q)

/-- The outer loop `for i, bbox in enumerate(bboxes[:-1])` of
`greedy_nms_inplace`, in fuel-passing form so that the definition is
structurally recursive (the fuel is the number of remaining rows, which
`stepRest` preserves).  Each step suppresses the head row by the
accumulated mask and rewrites the tail rows, exactly as one iteration of
the source loop mutates `class_probs`. -/
def nmsFuel (t : ℚ) : Nat → List Detection → List Detection
  | 0, l => l
  | _ + 1, [] => []
  | n + 1, p :: rest =>
      let bi := toBox p
      { p with classes := applyMask p.classes (maskOfRest t bi p.classes rest) }
        :: nmsFuel t n (stepRest t bi p.classes rest)

/-- Greedy NMS on the prediction buffer: for every pair of rows whose
boxes overlap with IOU above `nms_thresh`, per class, the lower of the
two scores (ties losing to the earlier row) is forced to 0, sequentially
in index order.  (The Python loop skips the last row as the `i` operand;
a final iteration with an empty tail is a no-op, so running the loop over
all rows is the same function.) -/
def greedy_nms_inplace (nms_thresh : ℚ) (preds : List Detection) : List Detection :=
  nmsFuel nms_thresh preds.length preds

/-- Modelled from the spec: the suppression-kind selector constant
`GREEDY_NMS` lives in `utilities/constants`, which is not under `src/`;
only its identity (a fixed value the dispatcher compares against) matters. -/
def GREEDY_NMS : Nat := 0

/-- Modelled from the spec: the module-level default threshold
`NMS_THRESHOLD` from `utilities/constants` is not under `src/`; the spec
constrains it to `[0,1]` but gives no value, so a fixed representative in
that range is used. -/
def NMS_THRESHOLD : ℚ := 45 / 100

/-- Modelled from the spec: the per-detector-layer suppression
configuration record, "a suppression-kind selector and a numeric overlap
threshold" (the YOLO layer class itself is not under `src/`).  The
dispatcher reads `nms_kind`; the spec also gives the record a
`threshold` field. -/
structure YoloLayer where
  nms_kind : Nat
  threshold : ℚ

/-- The dispatcher `run_nms_inplace`: if `yolo_layer.nms_kind` equals
`GREEDY_NMS` it calls `greedy_nms_inplace(preds)` — with the default
argument `nms_thresh=NMS_THRESHOLD` — and otherwise falls through to the
bare `return`, leaving the buffer untouched. -/
def run_nms_inplace (preds : List Detection) (yolo_layer : YoloLayer) : List Detection :=
  if yolo_layer.nms_kind = GREEDY_NMS then
    greedy_nms_inplace NMS_THRESHOLD preds
  else
    preds

/-- The value of class `c` of row `i` of a buffer (0 past the ends). -/
def rowVal (l : List Detection) (i c : Nat) : ℚ :=
  ((l.getD i default).classes).getD c 0

/-- Two detection records that agree on every field except possibly the
class scores. -/
def sameGeom (p q : Detection) : Prop :=
  p.tx = q.tx ∧ p.ty = q.ty ∧ p.tw = q.tw ∧ p.th = q.th ∧ p.obj = q.obj

/-- Every record of the buffer has exactly `C` class scores: the buffer is
a rectangular `N × (5 + C)` tensor. -/
def uniformW (C : Nat) (l : List Detection) : Prop :=
  ∀ q ∈ l, q.classes.length = C

/-- Every class score of the buffer is nonnegative (scores are products
of probabilities). -/
def nonnegBuf (l : List Detection) : Prop :=
  ∀ i c : Nat, 0 ≤ rowVal l i c

/-- `interArea` of `bbox_iou`: clamped intersection width times clamped
intersection height. -/
def interArea (a b : Box) : ℚ :=
  max (min a.x2 b.x2 - max a.x1 b.x1) 0 * max (min a.y2 b.y2 - max a.y1 b.y1) 0

/-- The (signed) area `(x2 - x1) * (y2 - y1)` of a corner-form box. -/
def boxArea (bx : Box) : ℚ := (bx.x2 - bx.x1) * (bx.y2 - bx.y1)

/-- The denominator of `bbox_iou`: `bboxes_aArea + bboxes_bArea - interArea`. -/
def unionArea (a b : Box) : ℚ := boxArea a + boxArea b - interArea a b

/-- A detection centered at the origin with a 2×2 box. -/
def W0 : Detection := ⟨0, 0, 2, 2, 1, [9/10, 3/10]⟩

/-- A detection overlapping `W0` (IOU `3/5`). -/
def W1 : Detection := ⟨1/2, 0, 2, 2, 1, [7/10, 3/10]⟩

/-- A detection far away from `W0` (IOU `0`). -/
def WF : Detection := ⟨10, 0, 2, 2, 1, [7/10, 3/10]⟩

/-- Single-class detection tied with `T1`. -/
def T0 : Detection := ⟨0, 0, 2, 2, 1, [3/10]⟩

/-- Single-class detection tied with `T0`, overlapping it (IOU `3/5`). -/
def T1 : Detection := ⟨1/2, 0, 2, 2, 1, [3/10]⟩

/-- Overlaps `W0` and out-scores the snapshot `[1/2]`. -/
def DA : Detection := ⟨1/2, 0, 2, 2, 1, [9/10]⟩

/-- Overlaps `W0` and scores below the snapshot `[1/2]`. -/
def DB : Detection := ⟨-1/2, 0, 2, 2, 1, [3/10]⟩

/-! ### Pointwise access helpers -/

theorem zipWith_getD {α β γ} (f : α → β → γ) (da : α) (db : β) (dc : γ)
    (xs : List α) (ys : List β) (c : Nat) (hx : c < xs.length) (hy : c < ys.length) :
    (List.zipWith f xs ys).getD c dc = f (xs.getD c da) (ys.getD c db) := by
  induction xs generalizing ys c with
  | nil => simp at hx
  | cons x xs ih =>
      cases ys with
      | nil => simp at hy
      | cons y ys =>
          cases c with
          | zero => simp
          | succ n =>
              simp only [List.zipWith_cons_cons, List.getD_cons_succ]
              exact ih ys n (by simpa using hx) (by simpa using hy)

theorem getD_map {α β} (f : α → β) (l : List α) (i : Nat) (d : β) (d' : α)
    (h : i < l.length) :
    (l.map f).getD i d = f (l.getD i d') := by
  rw [List.getD_eq_getElem _ _ (by simpa using h), List.getD_eq_getElem _ _ h,
    List.getElem_map]

/-! ### Shape lemmas -/

theorem length_suppB (a cj : List ℚ) : (suppB a cj).length = min a.length cj.length := by
  simp [suppB]

theorem length_applyMask (a : List ℚ) (m : List Bool) :
    (applyMask a m).length = min a.length m.length := by
  simp [applyMask]

theorem length_loseMask (a cj : List ℚ) : (loseMask a cj).length = min a.length cj.length := by
  simp [loseMask]

theorem length_maskOr (m1 m2 : List Bool) : (maskOr m1 m2).length = min m1.length m2.length := by
  simp [maskOr]

theorem length_stepRest (t : ℚ) (bi : Box) (a : List ℚ) (rest : List Detection) :
    (stepRest t bi a rest).length = rest.length := by
  simp [stepRest]

theorem length_maskOfRest (t : ℚ) (bi : Box) (a : List ℚ) (rest : List Detection)
    (hU : ∀ q ∈ rest, q.classes.length = a.length) :
    (maskOfRest t bi a rest).length = a.length := by
  induction rest with
  | nil => simp [maskOfRest]
  | cons q rest ih =>
      have hq : q.classes.length = a.length := hU q (by simp)
      have hrest : ∀ r ∈ rest, r.classes.length = a.length := fun r hr => hU r (by simp [hr])
      simp only [maskOfRest]
      split
      · simp [length_maskOr, length_loseMask, hq, ih hrest]
      · exact ih hrest

theorem length_nmsFuel (t : ℚ) : ∀ (n : Nat) (l : List Detection),
    (nmsFuel t n l).length = l.length := by
  intro n
  induction n with
  | zero => intro l; rfl
  | succ n ih =>
      intro l
      cases l with
      | nil => rfl
      | cons p rest => simp [nmsFuel, ih, length_stepRest]

theorem length_greedy (t : ℚ) (l : List Detection) :
    (greedy_nms_inplace t l).length = l.length :=
  length_nmsFuel t l.length l

/-! ### Unfolding equations for the greedy loop -/

theorem greedy_nil (t : ℚ) : greedy_nms_inplace t [] = [] := rfl

theorem greedy_cons (t : ℚ) (p : Detection) (rest : List Detection) :
    greedy_nms_inplace t (p :: rest) =
      { p with classes := applyMask p.classes (maskOfRest t (toBox p) p.classes rest) }
        :: greedy_nms_inplace t (stepRest t (toBox p) p.classes rest) := by
  simp [greedy_nms_inplace, nmsFuel, length_stepRest]

/-! ### Pointwise value lemmas -/

theorem suppB_getD (a cj : List ℚ) (c : Nat) (hc : c < a.length) (hc' : c < cj.length) :
    (suppB a cj).getD c 0 = if a.getD c 0 < cj.getD c 0 then cj.getD c 0 else 0 := by
  unfold suppB
  exact zipWith_getD _ 0 0 0 a cj c hc hc'

theorem applyMask_getD (a : List ℚ) (m : List Bool) (c : Nat)
    (hc : c < a.length) (hm : c < m.length) :
    (applyMask a m).getD c 0 = if m.getD c false then 0 else a.getD c 0 := by
  unfold applyMask
  exact zipWith_getD _ 0 false 0 a m c hc hm

theorem suppB_getD_or (a cj : List ℚ) (c : Nat) :
    (suppB a cj).getD c 0 = cj.getD c 0 ∨ (suppB a cj).getD c 0 = 0 := by
  by_cases h : c < a.length ∧ c < cj.length
  · rw [suppB_getD a cj c h.1 h.2]
    split
    · exact Or.inl rfl
    · exact Or.inr rfl
  · have : (suppB a cj).length ≤ c := by
      rw [length_suppB]; omega
    exact Or.inr (List.getD_eq_default _ _ this)

theorem applyMask_getD_or (a : List ℚ) (m : List Bool) (c : Nat) :
    (applyMask a m).getD c 0 = a.getD c 0 ∨ (applyMask a m).getD c 0 = 0 := by
  by_cases h : c < a.length ∧ c < m.length
  · rw [applyMask_getD a m c h.1 h.2]
    split
    · exact Or.inr rfl
    · exact Or.inl rfl
  · have : (applyMask a m).length ≤ c := by
      rw [length_applyMask]; omega
    exact Or.inr (List.getD_eq_default _ _ this)

theorem applyMask_false (a : List ℚ) : applyMask a (a.map fun _ => false) = a := by
  induction a with
  | nil => rfl
  | cons x xs ih => simp [applyMask, List.zipWith] at ih ⊢; exact ih

/-! ### One outer iteration: effect on the tail rows -/

theorem stepRest_getD (t : ℚ) (bi : Box) (a : List ℚ) (rest : List Detection)
    (j : Nat) (hj : j < rest.length) :
    (stepRest t bi a rest).getD j default =
      (if bbox_iou bi (toBox (rest.getD j default)) > t then
        { rest.getD j default with classes := suppB a (rest.getD j default).classes }
      else rest.getD j default) := by
  simp only [stepRest]
  rw [getD_map _ rest j default default hj]

theorem rowVal_stepRest_or (t : ℚ) (bi : Box) (a : List ℚ) (rest : List Detection)
    (j c : Nat) :
    rowVal (stepRest t bi a rest) j c = rowVal rest j c ∨
      rowVal (stepRest t bi a rest) j c = 0 := by
  by_cases hj : j < rest.length
  · rw [rowVal, stepRest_getD t bi a rest j hj]
    split
    · exact suppB_getD_or a _ c
    · exact Or.inl rfl
  · have h1 : (stepRest t bi a rest).length ≤ j := by rw [length_stepRest]; omega
    have h2 : rest.length ≤ j := by omega
    rw [rowVal, rowVal, List.getD_eq_default _ _ h1, List.getD_eq_default _ _ h2]
    exact Or.inl rfl

/-! ### Suppression only ever zeroes entries -/

theorem nmsFuel_succ_cons (t : ℚ) (n : Nat) (p : Detection) (rest : List Detection) :
    nmsFuel t (n + 1) (p :: rest) =
      { p with classes := applyMask p.classes (maskOfRest t (toBox p) p.classes rest) }
        :: nmsFuel t n (stepRest t (toBox p) p.classes rest) := rfl

theorem rowVal_cons_zero (p : Detection) (rest : List Detection) (c : Nat) :
    rowVal (p :: rest) 0 c = p.classes.getD c 0 := rfl

theorem rowVal_cons_succ (p : Detection) (rest : List Detection) (i c : Nat) :
    rowVal (p :: rest) (i + 1) c = rowVal rest i c := rfl

theorem rowVal_nmsFuel_or (t : ℚ) : ∀ (n : Nat) (l : List Detection) (i c : Nat),
    rowVal (nmsFuel t n l) i c = rowVal l i c ∨ rowVal (nmsFuel t n l) i c = 0 := by
  intro n
  induction n with
  | zero => intro l i c; exact Or.inl rfl
  | succ n ih =>
      intro l i c
      cases l with
      | nil => exact Or.inl rfl
      | cons p rest =>
          cases i with
          | zero =>
              rw [nmsFuel_succ_cons, rowVal_cons_zero, rowVal_cons_zero]
              exact applyMask_getD_or p.classes _ c
          | succ i =>
              rw [nmsFuel_succ_cons, rowVal_cons_succ, rowVal_cons_succ]
              rcases ih (stepRest t (toBox p) p.classes rest) i c with h | h
              · rcases rowVal_stepRest_or t (toBox p) p.classes rest i c with h' | h'
                · exact Or.inl (h.trans h')
                · exact Or.inr (h.trans h')
              · exact Or.inr h

theorem rowVal_greedy_or (t : ℚ) (l : List Detection) (i c : Nat) :
    rowVal (greedy_nms_inplace t l) i c = rowVal l i c ∨
      rowVal (greedy_nms_inplace t l) i c = 0 :=
  rowVal_nmsFuel_or t l.length l i c

/-! ### Geometry is never written -/


theorem sameGeom_refl (p : Detection) : sameGeom p p :=
  ⟨rfl, rfl, rfl, rfl, rfl⟩

theorem sameGeom_trans {p q r : Detection} (h1 : sameGeom p q) (h2 : sameGeom q r) :
    sameGeom p r :=
  ⟨h1.1.trans h2.1, h1.2.1.trans h2.2.1, h1.2.2.1.trans h2.2.2.1,
    h1.2.2.2.1.trans h2.2.2.2.1, h1.2.2.2.2.trans h2.2.2.2.2⟩

theorem sameGeom_setClasses (p : Detection) (cs : List ℚ) :
    sameGeom { p with classes := cs } p :=
  ⟨rfl, rfl, rfl, rfl, rfl⟩

theorem toBox_eq_of_sameGeom {p q : Detection} (h : sameGeom p q) : toBox p = toBox q := by
  obtain ⟨h1, h2, h3, h4, _⟩ := h
  simp [toBox, h1, h2, h3, h4]

theorem stepRest_sameGeom (t : ℚ) (bi : Box) (a : List ℚ) (rest : List Detection)
    (j : Nat) :
    sameGeom ((stepRest t bi a rest).getD j default) (rest.getD j default) := by
  by_cases hj : j < rest.length
  · rw [stepRest_getD t bi a rest j hj]
    split
    · exact sameGeom_setClasses _ _
    · exact sameGeom_refl _
  · have h1 : (stepRest t bi a rest).length ≤ j := by rw [length_stepRest]; omega
    have h2 : rest.length ≤ j := by omega
    rw [List.getD_eq_default _ _ h1, List.getD_eq_default _ _ h2]
    exact sameGeom_refl _

theorem nmsFuel_sameGeom (t : ℚ) : ∀ (n : Nat) (l : List Detection) (i : Nat),
    sameGeom ((nmsFuel t n l).getD i default) (l.getD i default) := by
  intro n
  induction n with
  | zero => intro l i; exact sameGeom_refl _
  | succ n ih =>
      intro l i
      cases l with
      | nil => exact sameGeom_refl _
      | cons p rest =>
          cases i with
          | zero => exact sameGeom_setClasses _ _
          | succ i =>
              rw [nmsFuel_succ_cons]
              simp only [List.getD_cons_succ]
              exact sameGeom_trans (ih (stepRest t (toBox p) p.classes rest) i)
                (stepRest_sameGeom t (toBox p) p.classes rest i)

theorem greedy_sameGeom (t : ℚ) (l : List Detection) (i : Nat) :
    sameGeom ((greedy_nms_inplace t l).getD i default) (l.getD i default) :=
  nmsFuel_sameGeom t l.length l i

/-! ### Buffer invariants: uniform row width, nonnegative scores -/



theorem nonnegBuf_head {p : Detection} {rest : List Detection}
    (h : nonnegBuf (p :: rest)) (c : Nat) : 0 ≤ p.classes.getD c 0 :=
  h 0 c

theorem nonnegBuf_tail {p : Detection} {rest : List Detection}
    (h : nonnegBuf (p :: rest)) : nonnegBuf rest :=
  fun i c => h (i + 1) c

theorem stepRest_uniformW {C : Nat} (t : ℚ) (bi : Box) {a : List ℚ}
    {rest : List Detection} (ha : a.length = C) (hU : uniformW C rest) :
    uniformW C (stepRest t bi a rest) := by
  intro q hq
  simp only [stepRest, List.mem_map] at hq
  obtain ⟨r, hr, hrq⟩ := hq
  subst hrq
  split
  · simp [length_suppB, ha, hU r hr]
  · exact hU r hr

theorem stepRest_nonneg (t : ℚ) (bi : Box) (a : List ℚ) {rest : List Detection}
    (h : nonnegBuf rest) : nonnegBuf (stepRest t bi a rest) := by
  intro i c
  rcases rowVal_stepRest_or t bi a rest i c with h' | h'
  · rw [h']; exact h i c
  · rw [h']

theorem nmsFuel_nonneg (t : ℚ) (n : Nat) {l : List Detection}
    (h : nonnegBuf l) : nonnegBuf (nmsFuel t n l) := by
  intro i c
  rcases rowVal_nmsFuel_or t n l i c with h' | h'
  · rw [h']; exact h i c
  · rw [h']

theorem nmsFuel_uniformW {C : Nat} (t : ℚ) : ∀ (n : Nat) (l : List Detection),
    l.length = n → uniformW C l → uniformW C (nmsFuel t n l) := by
  intro n
  induction n with
  | zero => intro l _ hU; exact hU
  | succ n ih =>
      intro l hn hU
      cases l with
      | nil => exact hU
      | cons p rest =>
          rw [nmsFuel_succ_cons]
          intro q hq
          have ha : p.classes.length = C := hU p (by simp)
          have hrest : uniformW C rest := fun r hr => hU r (by simp [hr])
          rcases List.mem_cons.mp hq with hq | hq
          · subst hq
            have hm : (maskOfRest t (toBox p) p.classes rest).length = p.classes.length :=
              length_maskOfRest t (toBox p) p.classes rest
                (fun r hr => (hrest r hr).trans ha.symm)
            simp [length_applyMask, hm, ha]
          · exact ih (stepRest t (toBox p) p.classes rest)
              (by rw [length_stepRest]; simpa using hn)
              (stepRest_uniformW t (toBox p) ha hrest) q hq

theorem greedy_uniformW {C : Nat} (t : ℚ) {l : List Detection}
    (hU : uniformW C l) : uniformW C (greedy_nms_inplace t l) :=
  nmsFuel_uniformW t l.length l rfl hU

theorem greedy_nonneg (t : ℚ) {l : List Detection}
    (h : nonnegBuf l) : nonnegBuf (greedy_nms_inplace t l) :=
  nmsFuel_nonneg t l.length h

/-! ### Characterization of the row-`i` zeroing mask -/

theorem maskOr_getD (m1 m2 : List Bool) (c : Nat)
    (h1 : c < m1.length) (h2 : c < m2.length) :
    (maskOr m1 m2).getD c false = or (m1.getD c false) (m2.getD c false) := by
  unfold maskOr
  exact zipWith_getD _ false false false m1 m2 c h1 h2

theorem loseMask_getD (a cj : List ℚ) (c : Nat) (hc : c < a.length) (hc' : c < cj.length) :
    (loseMask a cj).getD c false = decide (a.getD c 0 < cj.getD c 0) := by
  unfold loseMask
  exact zipWith_getD _ 0 0 false a cj c hc hc'

theorem maskOfRest_getD_iff (t : ℚ) (bi : Box) (a : List ℚ) (rest : List Detection)
    (c : Nat) (hc : c < a.length)
    (hU : ∀ q ∈ rest, q.classes.length = a.length) :
    (maskOfRest t bi a rest).getD c false = true ↔
      ∃ j, j < rest.length ∧ bbox_iou bi (toBox (rest.getD j default)) > t ∧
        a.getD c 0 < (rest.getD j default).classes.getD c 0 := by
  induction rest with
  | nil =>
      simp only [maskOfRest]
      rw [getD_map (fun _ => false) a c false 0 hc]
      simp
  | cons q rest ih =>
      have hq : q.classes.length = a.length := hU q (by simp)
      have hrest : ∀ r ∈ rest, r.classes.length = a.length :=
        fun r hr => hU r (by simp [hr])
      simp only [maskOfRest]
      by_cases hov : bbox_iou bi (toBox q) > t
      · rw [if_pos hov]
        have hlen1 : c < (loseMask a q.classes).length := by
          rw [length_loseMask]; omega
        have hlen2 : c < (maskOfRest t bi a rest).length := by
          rw [length_maskOfRest t bi a rest hrest]; omega
        rw [maskOr_getD _ _ c hlen1 hlen2, loseMask_getD a q.classes c hc (by omega),
          Bool.or_eq_true, decide_eq_true_iff, ih hrest]
        constructor
        · rintro (h | ⟨j, hj, h1, h2⟩)
          · exact ⟨0, by simp, by simpa using hov, by simpa using h⟩
          · exact ⟨j + 1, by simpa using hj, by simpa using h1, by simpa using h2⟩
        · rintro ⟨j, hj, h1, h2⟩
          cases j with
          | zero => exact Or.inl (by simpa using h2)
          | succ j =>
              exact Or.inr ⟨j, by simpa using hj, by simpa using h1, by simpa using h2⟩
      · rw [if_neg hov, ih hrest]
        constructor
        · rintro ⟨j, hj, h1, h2⟩
          exact ⟨j + 1, by simpa using hj, by simpa using h1, by simpa using h2⟩
        · rintro ⟨j, hj, h1, h2⟩
          cases j with
          | zero => exact absurd (by simpa using h1) hov
          | succ j => exact ⟨j, by simpa using hj, by simpa using h1, by simpa using h2⟩

/-! ### Small structural helpers -/

theorem setClasses_self (q : Detection) : { q with classes := q.classes } = q := rfl

theorem toBox_setClasses (p : Detection) (cs : List ℚ) :
    toBox { p with classes := cs } = toBox p := rfl

theorem getD_mem {α} [Inhabited α] (l : List α) (i : Nat) (h : i < l.length) :
    l.getD i default ∈ l := by
  rw [List.getD_eq_getElem _ _ h]
  exact List.getElem_mem h

theorem nonnegBuf_of_mem (l : List Detection)
    (hN : ∀ p ∈ l, ∀ x ∈ p.classes, 0 ≤ x) : nonnegBuf l := by
  intro i c
  by_cases hi : i < l.length
  · by_cases hc : c < (l.getD i default).classes.length
    · have hp : l.getD i default ∈ l := getD_mem l i hi
      have hx : (l.getD i default).classes.getD c 0 ∈ (l.getD i default).classes := by
        rw [List.getD_eq_getElem _ _ hc]
        exact List.getElem_mem hc
      exact hN _ hp _ hx
    · rw [rowVal, List.getD_eq_default ((l.getD i default).classes) 0 (by omega)]
  · rw [rowVal, List.getD_eq_default l default (by omega)]
    exact le_refl 0

theorem greedy_singleton (t : ℚ) (q : Detection) : greedy_nms_inplace t [q] = [q] := by
  rw [greedy_cons]
  simp only [maskOfRest, applyMask_false, stepRest, List.map_nil, greedy_nil,
    setClasses_self]

theorem maskOfRest_eraseIdx (t : ℚ) (bi : Box) (a : List ℚ) :
    ∀ (rest : List Detection) (j : Nat), j < rest.length →
      ¬ bbox_iou bi (toBox (rest.getD j default)) > t →
      maskOfRest t bi a rest = maskOfRest t bi a (rest.eraseIdx j) := by
  intro rest
  induction rest with
  | nil => intro j hj; simp at hj
  | cons q rest ih =>
      intro j hj hov
      cases j with
      | zero =>
          simp only [List.eraseIdx_cons_zero]
          simp only [List.getD_cons_zero] at hov
          simp only [maskOfRest]
          rw [if_neg hov]
      | succ j =>
          simp only [List.eraseIdx_cons_succ]
          simp only [maskOfRest]
          rw [ih j (by simpa using hj) (by simpa using hov)]

/-! ### Extensionality helpers -/

theorem list_eq_of_getD (xs ys : List ℚ) (h : xs.length = ys.length)
    (hp : ∀ c, c < ys.length → xs.getD c 0 = ys.getD c 0) : xs = ys := by
  apply List.ext_getElem h
  intro i h1 h2
  have hx := hp i h2
  rw [List.getD_eq_getElem _ _ h1, List.getD_eq_getElem _ _ h2] at hx
  exact hx

theorem detList_eq_of_getD (xs ys : List Detection) (h : xs.length = ys.length)
    (hp : ∀ j, j < ys.length → xs.getD j default = ys.getD j default) : xs = ys := by
  apply List.ext_getElem h
  intro i h1 h2
  have hx := hp i h2
  rw [List.getD_eq_getElem _ _ h1, List.getD_eq_getElem _ _ h2] at hx
  exact hx

/-! ### A second pass over an already-suppressed buffer changes nothing -/

theorem second_pass (t : ℚ) (C : Nat) (bi : Box) (a : List ℚ) (rest : List Detection)
    (ha : a.length = C) (hU : uniformW C rest)
    (hNa : ∀ c, 0 ≤ a.getD c 0) (hN : nonnegBuf rest) :
    stepRest t bi (applyMask a (maskOfRest t bi a rest))
        (nmsFuel t rest.length (stepRest t bi a rest))
      = nmsFuel t rest.length (stepRest t bi a rest)
  ∧ applyMask (applyMask a (maskOfRest t bi a rest))
        (maskOfRest t bi (applyMask a (maskOfRest t bi a rest))
          (nmsFuel t rest.length (stepRest t bi a rest)))
      = applyMask a (maskOfRest t bi a rest) := by
  set m := maskOfRest t bi a rest with hm
  set a' := applyMask a m with ha2
  set r' := stepRest t bi a rest with hr2
  set g := nmsFuel t rest.length r' with hg2
  have hUa : ∀ q ∈ rest, q.classes.length = a.length :=
    fun q hq => (hU q hq).trans ha.symm
  have hlm : m.length = a.length := by
    rw [hm]; exact length_maskOfRest t bi a rest hUa
  have hla' : a'.length = C := by
    rw [ha2, length_applyMask, hlm, ha]; omega
  have hUr' : uniformW C r' := stepRest_uniformW t bi ha hU
  have hNr' : nonnegBuf r' := stepRest_nonneg t bi a hN
  have hlr' : r'.length = rest.length := by rw [hr2]; exact length_stepRest t bi a rest
  have hUg : uniformW C g := by
    rw [hg2]; exact nmsFuel_uniformW t rest.length r' hlr' hUr'
  have hNg : nonnegBuf g := by rw [hg2]; exact nmsFuel_nonneg t rest.length hNr'
  have hlg : g.length = rest.length := by
    rw [hg2, length_nmsFuel]; exact hlr'
  have hbox : ∀ j, toBox (g.getD j default) = toBox (rest.getD j default) := by
    intro j
    apply toBox_eq_of_sameGeom
    exact sameGeom_trans (by rw [hg2]; exact nmsFuel_sameGeom t rest.length r' j)
      (by rw [hr2]; exact stepRest_sameGeom t bi a rest j)
  have hNa' : ∀ c, 0 ≤ a'.getD c 0 := by
    intro c
    rcases applyMask_getD_or a m c with h | h
    · rw [ha2, h]; exact hNa c
    · rw [ha2, h]
  have maskIff : ∀ c, c < C → (m.getD c false = true ↔
      ∃ j, j < rest.length ∧ bbox_iou bi (toBox (rest.getD j default)) > t ∧
        a.getD c 0 < (rest.getD j default).classes.getD c 0) := by
    intro c hc
    rw [hm]
    exact maskOfRest_getD_iff t bi a rest c (by omega) hUa
  have a'val : ∀ c, c < C →
      a'.getD c 0 = if m.getD c false then 0 else a.getD c 0 := by
    intro c hc
    rw [ha2]
    exact applyMask_getD a m c (by omega) (by omega)
  -- the value of an overlapping row of r' at class c, in terms of the input
  have r'val : ∀ j c, j < rest.length → c < C →
      bbox_iou bi (toBox (rest.getD j default)) > t →
      rowVal r' j c =
        if a.getD c 0 < (rest.getD j default).classes.getD c 0 then
          (rest.getD j default).classes.getD c 0
        else 0 := by
    intro j c hj hc hov
    rw [rowVal, hr2, stepRest_getD t bi a rest j hj, if_pos hov]
    exact suppB_getD a _ c (by omega)
      (by rw [hU _ (getD_mem rest j hj)]; omega)
  -- an overlapping row of g is zero at c whenever the head row kept c
  have gval0 : ∀ j c, j < rest.length → c < C →
      bbox_iou bi (toBox (rest.getD j default)) > t →
      m.getD c false = false → rowVal g j c = 0 := by
    intro j c hj hc hov hmf
    have hnot : ¬ a.getD c 0 < (rest.getD j default).classes.getD c 0 := by
      intro hlt
      have : m.getD c false = true := (maskIff c hc).mpr ⟨j, hj, hov, hlt⟩
      rw [hmf] at this
      exact Bool.false_ne_true this
    have h0 : rowVal r' j c = 0 := by rw [r'val j c hj hc hov, if_neg hnot]
    rcases (by rw [hg2]; exact rowVal_nmsFuel_or t rest.length r' j c :
        rowVal g j c = rowVal r' j c ∨ rowVal g j c = 0) with h | h
    · rw [h, h0]
    · exact h
  -- the head row is zero at c whenever some overlapping row of g beats it
  have headZero : ∀ j c, j < rest.length → c < C →
      bbox_iou bi (toBox (rest.getD j default)) > t →
      a'.getD c 0 < rowVal g j c → a'.getD c 0 = 0 := by
    intro j c hj hc hov hlt
    have hwpos : 0 < rowVal g j c := lt_of_le_of_lt (hNa' c) hlt
    have hwr' : rowVal g j c = rowVal r' j c := by
      rcases (by rw [hg2]; exact rowVal_nmsFuel_or t rest.length r' j c :
          rowVal g j c = rowVal r' j c ∨ rowVal g j c = 0) with h | h
      · exact h
      · rw [h] at hwpos; exact absurd hwpos (lt_irrefl 0)
    rw [hwr', r'val j c hj hc hov] at hwpos
    by_cases hwin : a.getD c 0 < (rest.getD j default).classes.getD c 0
    · rw [a'val c hc, if_pos ((maskIff c hc).mpr ⟨j, hj, hov, hwin⟩)]
    · rw [if_neg hwin] at hwpos
      exact absurd hwpos (lt_irrefl 0)
  constructor
  · -- the tail rows are all fixed points of the second pass
    apply detList_eq_of_getD _ _ (by rw [length_stepRest])
    intro j hjg
    have hj : j < rest.length := by omega
    rw [stepRest_getD t bi a' g j hjg]
    by_cases hov : bbox_iou bi (toBox (g.getD j default)) > t
    · rw [if_pos hov]
      rw [hbox j] at hov
      have hwlen : (g.getD j default).classes.length = C := hUg _ (getD_mem g j hjg)
      have hclasses : suppB a' (g.getD j default).classes = (g.getD j default).classes := by
        apply list_eq_of_getD _ _ (by rw [length_suppB, hla', hwlen]; omega)
        intro c hcw
        have hc : c < C := by omega
        rw [suppB_getD a' _ c (by omega) (by omega)]
        by_cases hmc : m.getD c false = true
        · have ha0 : a'.getD c 0 = 0 := by rw [a'val c hc, if_pos hmc]
          rw [ha0, show ((g.getD j default).classes).getD c 0 = rowVal g j c from rfl]
          rcases eq_or_lt_of_le (hNg j c) with hw | hw
          · rw [← hw]
            simp
          · rw [if_pos hw]
        · have hw0 : rowVal g j c = 0 :=
            gval0 j c hj hc hov (Bool.not_eq_true _ ▸ hmc)
          rw [show ((g.getD j default).classes).getD c 0 = rowVal g j c from rfl, hw0]
          split <;> rfl
      rw [hclasses, setClasses_self]
    · rw [if_neg hov]
  · -- the head row is a fixed point of the second pass
    have hUga' : ∀ q ∈ g, q.classes.length = a'.length :=
      fun q hq => (hUg q hq).trans hla'.symm
    have hlm2 : (maskOfRest t bi a' g).length = a'.length :=
      length_maskOfRest t bi a' g hUga'
    apply list_eq_of_getD _ _ (by rw [length_applyMask, hlm2]; omega)
    intro c hca'
    have hc : c < C := by omega
    rw [applyMask_getD a' _ c (by omega) (by omega)]
    by_cases hmc : (maskOfRest t bi a' g).getD c false = true
    · rw [if_pos hmc]
      obtain ⟨j, hjg, hov, hlt⟩ :=
        (maskOfRest_getD_iff t bi a' g c (by omega) hUga').mp hmc
      have hj : j < rest.length := by omega
      rw [hbox j] at hov
      exact (headZero j c hj hc hov hlt).symm
    · rw [if_neg hmc]

theorem classes_setClasses (p : Detection) (cs : List ℚ) :
    ({ p with classes := cs } : Detection).classes = cs := rfl

theorem nmsFuel_idem (t : ℚ) (C : Nat) :
    ∀ (n : Nat) (l : List Detection), l.length = n → uniformW C l → nonnegBuf l →
      nmsFuel t n (nmsFuel t n l) = nmsFuel t n l := by
  intro n
  induction n with
  | zero => intro l _ _ _; rfl
  | succ n ih =>
      intro l hn hU hN
      cases l with
      | nil => rfl
      | cons p rest =>
          have hlen : rest.length = n := by simp at hn; omega
          have ha : p.classes.length = C := hU p (by simp)
          have hUrest : uniformW C rest := fun q hq => hU q (by simp [hq])
          have hNa : ∀ c, 0 ≤ p.classes.getD c 0 := nonnegBuf_head hN
          have hNrest : nonnegBuf rest := nonnegBuf_tail hN
          obtain ⟨k1, k2⟩ := second_pass t C (toBox p) p.classes rest ha hUrest hNa hNrest
          rw [hlen] at k1 k2
          rw [nmsFuel_succ_cons, nmsFuel_succ_cons]
          simp only [classes_setClasses, toBox_setClasses]
          rw [k1, k2]
          congr 1
          exact ih (stepRest t (toBox p) p.classes rest)
            (by rw [length_stepRest]; exact hlen)
            (stepRest_uniformW t (toBox p) ha hUrest)
            (stepRest_nonneg t (toBox p) p.classes hNrest)

/-! ### Named pieces of the IOU computation (the source's local variables) -/




theorem bbox_iou_eq (a b : Box) : bbox_iou a b = interArea a b / unionArea a b := rfl

/-! ## Claim theorems -/

/-- C8: for every pair of corner-form boxes, the pairwise IOU function is
symmetric: `iou(A, B) = iou(B, A)` (here proved for all box pairs, in
particular those with non-zero union area). -/
theorem bbox_iou_symm (a b : Box) : bbox_iou a b = bbox_iou b a := by
  simp only [bbox_iou]
  rw [max_comm a.x1 b.x1, max_comm a.y1 b.y1, min_comm a.x2 b.x2, min_comm a.y2 b.y2,
    add_comm ((a.x2 - a.x1) * (a.y2 - a.y1)) ((b.x2 - b.x1) * (b.y2 - b.y1))]

/-- C9: for every pair of non-degenerate corner-form boxes with positive
union area, the intersection area is clamped to be nonnegative and the
computed IOU lies in `[0, 1]`. -/
theorem bbox_iou_bounded (a b : Box)
    (hax : a.x1 ≤ a.x2) (hay : a.y1 ≤ a.y2) (hbx : b.x1 ≤ b.x2) (hby : b.y1 ≤ b.y2)
    (hu : 0 < unionArea a b) :
    0 ≤ interArea a b ∧ 0 ≤ bbox_iou a b ∧ bbox_iou a b ≤ 1 := by
  have hw0 : (0:ℚ) ≤ max (min a.x2 b.x2 - max a.x1 b.x1) 0 := le_max_right _ _
  have hh0 : (0:ℚ) ≤ max (min a.y2 b.y2 - max a.y1 b.y1) 0 := le_max_right _ _
  have hwa : max (min a.x2 b.x2 - max a.x1 b.x1) 0 ≤ a.x2 - a.x1 := by
    apply max_le _ (by linarith)
    have h1 : min a.x2 b.x2 ≤ a.x2 := min_le_left _ _
    have h2 : a.x1 ≤ max a.x1 b.x1 := le_max_left _ _
    linarith
  have hha : max (min a.y2 b.y2 - max a.y1 b.y1) 0 ≤ a.y2 - a.y1 := by
    apply max_le _ (by linarith)
    have h1 : min a.y2 b.y2 ≤ a.y2 := min_le_left _ _
    have h2 : a.y1 ≤ max a.y1 b.y1 := le_max_left _ _
    linarith
  have hwb : max (min a.x2 b.x2 - max a.x1 b.x1) 0 ≤ b.x2 - b.x1 := by
    apply max_le _ (by linarith)
    have h1 : min a.x2 b.x2 ≤ b.x2 := min_le_right _ _
    have h2 : b.x1 ≤ max a.x1 b.x1 := le_max_right _ _
    linarith
  have hhb : max (min a.y2 b.y2 - max a.y1 b.y1) 0 ≤ b.y2 - b.y1 := by
    apply max_le _ (by linarith)
    have h1 : min a.y2 b.y2 ≤ b.y2 := min_le_right _ _
    have h2 : b.y1 ≤ max a.y1 b.y1 := le_max_right _ _
    linarith
  have hi0 : 0 ≤ interArea a b := mul_nonneg hw0 hh0
  have hiA : interArea a b ≤ boxArea a := by
    unfold interArea boxArea
    exact mul_le_mul hwa hha hh0 (by linarith)
  have hiB : interArea a b ≤ boxArea b := by
    unfold interArea boxArea
    exact mul_le_mul hwb hhb hh0 (by linarith)
  refine ⟨hi0, ?_, ?_⟩
  · rw [bbox_iou_eq]
    exact div_nonneg hi0 (le_of_lt hu)
  · rw [bbox_iou_eq, div_le_one hu]
    rw [unionArea] at hu ⊢
    linarith

/-- Witness for C9 at concrete unit-height boxes `(0,0,2,2)` and `(1,0,3,2)`. -/
theorem bbox_iou_bounded_witness :
    ((Box.mk 0 0 2 2).x1 ≤ (Box.mk 0 0 2 2).x2 ∧
      (Box.mk 0 0 2 2).y1 ≤ (Box.mk 0 0 2 2).y2 ∧
      (Box.mk 1 0 3 2).x1 ≤ (Box.mk 1 0 3 2).x2 ∧
      (Box.mk 1 0 3 2).y1 ≤ (Box.mk 1 0 3 2).y2 ∧
      0 < unionArea (Box.mk 0 0 2 2) (Box.mk 1 0 3 2)) ∧
    (0 ≤ interArea (Box.mk 0 0 2 2) (Box.mk 1 0 3 2) ∧
      0 ≤ bbox_iou (Box.mk 0 0 2 2) (Box.mk 1 0 3 2) ∧
      bbox_iou (Box.mk 0 0 2 2) (Box.mk 1 0 3 2) ≤ 1) :=
  ⟨⟨by norm_num, by norm_num, by norm_num, by norm_num,
      by norm_num [unionArea, boxArea, interArea]⟩,
    bbox_iou_bounded (Box.mk 0 0 2 2) (Box.mk 1 0 3 2) (by norm_num) (by norm_num)
      (by norm_num) (by norm_num) (by norm_num [unionArea, boxArea, interArea])⟩

/-- C1: for an overlapping pair, the per-class comparison of the snapshot
score `a` of the earlier box against a later box's score `b` zeroes the
earlier box's entry when `a < b` and zeroes the later box's entry when
`b ≤ a` (so also on exact equality); on a two-box buffer with an
overlapping tie the earlier box's score survives and the later box's
score is zeroed. -/
theorem greedy_pairwise_tiebreak (t : ℚ) (bi : Box) (a : List ℚ)
    (rest : List Detection) (j c : Nat) (p0 p1 : Detection) (c2 : Nat)
    (hj : j < rest.length)
    (hU : ∀ q ∈ rest, q.classes.length = a.length)
    (hc : c < a.length)
    (hov : bbox_iou bi (toBox (rest.getD j default)) > t)
    (hlen : p1.classes.length = p0.classes.length)
    (hc2 : c2 < p0.classes.length)
    (hov2 : bbox_iou (toBox p0) (toBox p1) > t)
    (htie : p0.classes.getD c2 0 = p1.classes.getD c2 0) :
    (a.getD c 0 < (rest.getD j default).classes.getD c 0 →
        (maskOfRest t bi a rest).getD c false = true)
  ∧ ((rest.getD j default).classes.getD c 0 ≤ a.getD c 0 →
        ((stepRest t bi a rest).getD j default).classes.getD c 0 = 0)
  ∧ rowVal (greedy_nms_inplace t [p0, p1]) 0 c2 = p0.classes.getD c2 0
  ∧ rowVal (greedy_nms_inplace t [p0, p1]) 1 c2 = 0 := by
  have hstep : stepRest t (toBox p0) p0.classes [p1] =
      [{ p1 with classes := suppB p0.classes p1.classes }] := by
    simp only [stepRest, List.map_cons, List.map_nil]
    rw [if_pos hov2]
  have hg2 : greedy_nms_inplace t [p0, p1] =
      { p0 with classes := applyMask p0.classes (maskOfRest t (toBox p0) p0.classes [p1]) }
        :: [{ p1 with classes := suppB p0.classes p1.classes }] := by
    rw [greedy_cons, hstep, greedy_singleton]
  have hU1 : ∀ q ∈ [p1], q.classes.length = p0.classes.length := by
    intro q hq
    rw [List.mem_singleton.mp hq]
    exact hlen
  refine ⟨?_, ?_, ?_, ?_⟩
  · intro hlt
    exact (maskOfRest_getD_iff t bi a rest c hc hU).mpr ⟨j, hj, hov, hlt⟩
  · intro hle
    rw [stepRest_getD t bi a rest j hj, if_pos hov, classes_setClasses,
      suppB_getD a _ c hc (by rw [hU _ (getD_mem rest j hj)]; exact hc),
      if_neg (not_lt.mpr hle)]
  · rw [hg2, rowVal_cons_zero, classes_setClasses]
    have hM : (maskOfRest t (toBox p0) p0.classes [p1]).getD c2 false = false := by
      by_contra hMt
      obtain ⟨j', hj', _, hlt'⟩ :=
        (maskOfRest_getD_iff t (toBox p0) p0.classes [p1] c2 hc2 hU1).mp
          (Bool.not_eq_false _ ▸ hMt)
      have hj0 : j' = 0 := by
        simp only [List.length_singleton] at hj'
        omega
      subst hj0
      simp only [List.getD_cons_zero] at hlt'
      rw [htie] at hlt'
      exact lt_irrefl _ hlt'
    rw [applyMask_getD p0.classes _ c2 hc2
        (by rw [length_maskOfRest t (toBox p0) p0.classes [p1] hU1]; exact hc2), hM]
    simp
  · rw [hg2, rowVal_cons_succ, rowVal_cons_zero, classes_setClasses,
      suppB_getD p0.classes p1.classes c2 hc2 (by rw [hlen]; exact hc2), htie,
      if_neg (lt_irrefl _)]

/-- C2 (amended): when the configured kind is the greedy strategy, the
dispatcher calls the greedy suppressor with the module-level default
threshold `NMS_THRESHOLD`, not with the configuration's own threshold
field. -/
theorem dispatch_greedy_uses_global_default (preds : List Detection) (yl : YoloLayer)
    (h : yl.nms_kind = GREEDY_NMS) :
    run_nms_inplace preds yl = greedy_nms_inplace NMS_THRESHOLD preds := by
  rw [run_nms_inplace, if_pos h]

set_option maxHeartbeats 1000000 in
/-- C2 counterexample: a greedy-kind configuration whose threshold field
is `0` is not dispatched at threshold `0` — the two boxes below have IOU
`1/3`, so greedy suppression at the configured threshold `0` zeroes a
score while the dispatcher (which uses `NMS_THRESHOLD = 45/100`) leaves
the buffer unchanged. -/
theorem dispatch_threshold_counterexample :
    run_nms_inplace [⟨0, 0, 2, 2, 1, [1]⟩, ⟨1, 0, 2, 2, 1, [2]⟩]
        (YoloLayer.mk GREEDY_NMS 0) ≠
      greedy_nms_inplace (YoloLayer.mk GREEDY_NMS 0).threshold
        [⟨0, 0, 2, 2, 1, [1]⟩, ⟨1, 0, 2, 2, 1, [2]⟩] := by
  norm_num [run_nms_inplace, GREEDY_NMS, NMS_THRESHOLD, greedy_nms_inplace, nmsFuel,
    stepRest, maskOfRest, maskOr, loseMask, suppB, applyMask, bbox_iou, toBox]

/-- C3: greedy suppression is idempotent on rectangular buffers with
nonnegative class scores (the data model's confidence scores): a second
pass with the same threshold changes nothing. -/
theorem greedy_idempotent (t : ℚ) (C : Nat) (l : List Detection)
    (hU : ∀ p ∈ l, p.classes.length = C)
    (hN : ∀ p ∈ l, ∀ x ∈ p.classes, 0 ≤ x) :
    greedy_nms_inplace t (greedy_nms_inplace t l) = greedy_nms_inplace t l := by
  have h := nmsFuel_idem t C l.length l rfl hU (nonnegBuf_of_mem l hN)
  calc greedy_nms_inplace t (greedy_nms_inplace t l)
      = nmsFuel t (greedy_nms_inplace t l).length (nmsFuel t l.length l) := rfl
    _ = nmsFuel t l.length (nmsFuel t l.length l) := by rw [length_greedy]
    _ = nmsFuel t l.length l := h
    _ = greedy_nms_inplace t l := rfl

/-- C4: on buffers with nonnegative class scores, one greedy suppression
call never increases any class score: every stored score is at most its
input value. -/
theorem greedy_monotone (t : ℚ) (l : List Detection)
    (hN : ∀ p ∈ l, ∀ x ∈ p.classes, 0 ≤ x) (i c : Nat) :
    rowVal (greedy_nms_inplace t l) i c ≤ rowVal l i c := by
  rcases rowVal_greedy_or t l i c with h | h
  · rw [h]
  · rw [h]
    exact nonnegBuf_of_mem l hN i c

/-- C5: a pair whose IOU is at most the threshold suppresses nothing: the
later row is left untouched by that iteration, the earlier row's zeroing
mask is computed as if the later row were absent, and a two-box buffer
with IOU at most the threshold passes through unchanged. -/
theorem no_suppression_at_or_below_threshold (t : ℚ) (bi : Box) (a : List ℚ)
    (rest : List Detection) (j : Nat) (p0 p1 : Detection)
    (hj : j < rest.length)
    (hov : bbox_iou bi (toBox (rest.getD j default)) ≤ t)
    (hov2 : bbox_iou (toBox p0) (toBox p1) ≤ t) :
    (stepRest t bi a rest).getD j default = rest.getD j default
  ∧ maskOfRest t bi a rest = maskOfRest t bi a (rest.eraseIdx j)
  ∧ greedy_nms_inplace t [p0, p1] = [p0, p1] := by
  refine ⟨?_, ?_, ?_⟩
  · rw [stepRest_getD t bi a rest j hj, if_neg (not_lt.mpr hov)]
  · exact maskOfRest_eraseIdx t bi a rest j hj (not_lt.mpr hov)
  · have hstep : stepRest t (toBox p0) p0.classes [p1] = [p1] := by
      simp only [stepRest, List.map_cons, List.map_nil]
      rw [if_neg (not_lt.mpr hov2)]
    have hmask : maskOfRest t (toBox p0) p0.classes [p1] =
        p0.classes.map (fun _ => false) := by
      simp only [maskOfRest]
      rw [if_neg (not_lt.mpr hov2)]
    rw [greedy_cons, hstep, greedy_singleton, hmask, applyMask_false, setClasses_self]

/-- C6: one greedy suppression call preserves the buffer's length, every
box-attribute field (`tx`, `ty`, `tw`, `th`) and the objectness column of
every record, and every row's class count; a class entry either keeps its
input value or is replaced by `0`. -/
theorem greedy_frame (t : ℚ) (C : Nat) (l : List Detection)
    (hU : ∀ p ∈ l, p.classes.length = C) :
    (greedy_nms_inplace t l).length = l.length
  ∧ ∀ i, i < l.length →
      ((greedy_nms_inplace t l).getD i default).tx = (l.getD i default).tx
    ∧ ((greedy_nms_inplace t l).getD i default).ty = (l.getD i default).ty
    ∧ ((greedy_nms_inplace t l).getD i default).tw = (l.getD i default).tw
    ∧ ((greedy_nms_inplace t l).getD i default).th = (l.getD i default).th
    ∧ ((greedy_nms_inplace t l).getD i default).obj = (l.getD i default).obj
    ∧ ((greedy_nms_inplace t l).getD i default).classes.length
        = (l.getD i default).classes.length
    ∧ ∀ c, rowVal (greedy_nms_inplace t l) i c = rowVal l i c
        ∨ rowVal (greedy_nms_inplace t l) i c = 0 := by
  refine ⟨length_greedy t l, fun i hi => ?_⟩
  obtain ⟨h1, h2, h3, h4, h5⟩ := greedy_sameGeom t l i
  have hlen : ((greedy_nms_inplace t l).getD i default).classes.length = C := by
    apply greedy_uniformW t hU
    apply getD_mem
    rw [length_greedy]
    exact hi
  have hlen2 : (l.getD i default).classes.length = C := hU _ (getD_mem l i hi)
  exact ⟨h1, h2, h3, h4, h5, by rw [hlen, hlen2],
    fun c => rowVal_greedy_or t l i c⟩

/-- C7: a configuration whose kind does not match the greedy strategy
makes the dispatcher a silent no-op: the buffer is returned unchanged and
no error path exists. -/
theorem dispatch_unknown_kind_noop (preds : List Detection) (yl : YoloLayer)
    (h : yl.nms_kind ≠ GREEDY_NMS) : run_nms_inplace preds yl = preds := by
  rw [run_nms_inplace, if_neg h]

/-- C10: within one outer iteration all comparisons against later
overlapping rows use the snapshot of row `i` taken before the iteration's
writes: row `i` is zeroed at class `c` exactly when some overlapping
later row beats the snapshot there (in particular when `j1` does), and an
overlapping later row `j2` whose score is below the snapshot is zeroed
even though the earlier row `j1` of the same iteration out-scores the
snapshot. -/
theorem greedy_snapshot_semantics (t : ℚ) (bi : Box) (a : List ℚ)
    (rest : List Detection) (c : Nat) (j1 j2 : Nat)
    (hc : c < a.length)
    (hU : ∀ q ∈ rest, q.classes.length = a.length)
    (hj2 : j2 < rest.length)
    (hov2 : bbox_iou bi (toBox (rest.getD j2 default)) > t)
    (hlose : (rest.getD j2 default).classes.getD c 0 < a.getD c 0)
    (hj1 : j1 < j2)
    (hov1 : bbox_iou bi (toBox (rest.getD j1 default)) > t)
    (hwin : a.getD c 0 < (rest.getD j1 default).classes.getD c 0) :
    ((maskOfRest t bi a rest).getD c false = true ↔
      ∃ j, j < rest.length ∧ bbox_iou bi (toBox (rest.getD j default)) > t ∧
        a.getD c 0 < (rest.getD j default).classes.getD c 0)
  ∧ (maskOfRest t bi a rest).getD c false = true
  ∧ ((stepRest t bi a rest).getD j2 default).classes.getD c 0 = 0 := by
  have hiff := maskOfRest_getD_iff t bi a rest c hc hU
  refine ⟨hiff, hiff.mpr ⟨j1, by omega, hov1, hwin⟩, ?_⟩
  rw [stepRest_getD t bi a rest j2 hj2, if_pos hov2, classes_setClasses,
    suppB_getD a _ c hc (by rw [hU _ (getD_mem rest j2 hj2)]; exact hc),
    if_neg (not_lt.mpr (le_of_lt hlose))]








/-! ## Witnesses -/

/-- Witness for C1 at the overlapping pair `(W0, W1)` and the tied
two-box buffer `[T0, T1]`. -/
theorem greedy_pairwise_tiebreak_witness :
    (0 < ([W1] : List Detection).length
      ∧ (∀ q ∈ [W1], q.classes.length = W0.classes.length)
      ∧ 0 < W0.classes.length
      ∧ bbox_iou (toBox W0) (toBox (([W1] : List Detection).getD 0 default)) > 1/2
      ∧ T1.classes.length = T0.classes.length
      ∧ 0 < T0.classes.length
      ∧ bbox_iou (toBox T0) (toBox T1) > 1/2
      ∧ T0.classes.getD 0 0 = T1.classes.getD 0 0)
  ∧ ((W0.classes.getD 0 0 < (([W1] : List Detection).getD 0 default).classes.getD 0 0 →
        (maskOfRest (1/2) (toBox W0) W0.classes [W1]).getD 0 false = true)
    ∧ ((([W1] : List Detection).getD 0 default).classes.getD 0 0 ≤ W0.classes.getD 0 0 →
        ((stepRest (1/2) (toBox W0) W0.classes [W1]).getD 0 default).classes.getD 0 0 = 0)
    ∧ rowVal (greedy_nms_inplace (1/2) [T0, T1]) 0 0 = T0.classes.getD 0 0
    ∧ rowVal (greedy_nms_inplace (1/2) [T0, T1]) 1 0 = 0) :=
  ⟨⟨by norm_num, by norm_num [W0, W1], by norm_num [W0],
      by norm_num [W0, W1, bbox_iou, toBox], by norm_num [T0, T1], by norm_num [T0],
      by norm_num [T0, T1, bbox_iou, toBox], by norm_num [T0, T1]⟩,
    greedy_pairwise_tiebreak (1/2) (toBox W0) W0.classes [W1] 0 0 T0 T1 0
      (by norm_num) (by norm_num [W0, W1]) (by norm_num [W0])
      (by norm_num [W0, W1, bbox_iou, toBox]) (by norm_num [T0, T1]) (by norm_num [T0])
      (by norm_num [T0, T1, bbox_iou, toBox]) (by norm_num [T0, T1])⟩

/-- Witness for the amended C2 at a greedy-kind configuration. -/
theorem dispatch_greedy_uses_global_default_witness :
    (YoloLayer.mk GREEDY_NMS (1/2)).nms_kind = GREEDY_NMS
  ∧ run_nms_inplace [W0] (YoloLayer.mk GREEDY_NMS (1/2)) =
      greedy_nms_inplace NMS_THRESHOLD [W0] :=
  ⟨rfl, dispatch_greedy_uses_global_default [W0] (YoloLayer.mk GREEDY_NMS (1/2)) rfl⟩

/-- Witness for C3 on the overlapping two-box buffer `[W0, W1]`. -/
theorem greedy_idempotent_witness :
    ((∀ p ∈ [W0, W1], p.classes.length = 2)
      ∧ (∀ p ∈ [W0, W1], ∀ x ∈ p.classes, 0 ≤ x))
  ∧ greedy_nms_inplace (1/2) (greedy_nms_inplace (1/2) [W0, W1]) =
      greedy_nms_inplace (1/2) [W0, W1] :=
  ⟨⟨by norm_num [W0, W1], by norm_num [W0, W1]⟩,
    greedy_idempotent (1/2) 2 [W0, W1] (by norm_num [W0, W1]) (by norm_num [W0, W1])⟩

/-- Witness for C4 at row 1, class 0 of the buffer `[W0, W1]`. -/
theorem greedy_monotone_witness :
    (∀ p ∈ [W0, W1], ∀ x ∈ p.classes, 0 ≤ x)
  ∧ rowVal (greedy_nms_inplace (1/2) [W0, W1]) 1 0 ≤ rowVal [W0, W1] 1 0 :=
  ⟨by norm_num [W0, W1],
    greedy_monotone (1/2) [W0, W1] (by norm_num [W0, W1]) 1 0⟩

/-- Witness for C5 at the non-overlapping pair `(W0, WF)`. -/
theorem no_suppression_at_or_below_threshold_witness :
    (0 < ([WF] : List Detection).length
      ∧ bbox_iou (toBox W0) (toBox (([WF] : List Detection).getD 0 default)) ≤ 1/2
      ∧ bbox_iou (toBox W0) (toBox WF) ≤ 1/2)
  ∧ ((stepRest (1/2) (toBox W0) W0.classes [WF]).getD 0 default =
        ([WF] : List Detection).getD 0 default
    ∧ maskOfRest (1/2) (toBox W0) W0.classes [WF] =
        maskOfRest (1/2) (toBox W0) W0.classes (([WF] : List Detection).eraseIdx 0)
    ∧ greedy_nms_inplace (1/2) [W0, WF] = [W0, WF]) :=
  ⟨⟨by norm_num, by norm_num [W0, WF, bbox_iou, toBox],
      by norm_num [W0, WF, bbox_iou, toBox]⟩,
    no_suppression_at_or_below_threshold (1/2) (toBox W0) W0.classes [WF] 0 W0 WF
      (by norm_num) (by norm_num [W0, WF, bbox_iou, toBox])
      (by norm_num [W0, WF, bbox_iou, toBox])⟩

/-- Witness for C6 on the buffer `[W0, W1]` with two class channels. -/
theorem greedy_frame_witness :
    (∀ p ∈ [W0, W1], p.classes.length = 2)
  ∧ ((greedy_nms_inplace (1/2) [W0, W1]).length = ([W0, W1] : List Detection).length
    ∧ ∀ i, i < ([W0, W1] : List Detection).length →
        ((greedy_nms_inplace (1/2) [W0, W1]).getD i default).tx
          = (([W0, W1] : List Detection).getD i default).tx
      ∧ ((greedy_nms_inplace (1/2) [W0, W1]).getD i default).ty
          = (([W0, W1] : List Detection).getD i default).ty
      ∧ ((greedy_nms_inplace (1/2) [W0, W1]).getD i default).tw
          = (([W0, W1] : List Detection).getD i default).tw
      ∧ ((greedy_nms_inplace (1/2) [W0, W1]).getD i default).th
          = (([W0, W1] : List Detection).getD i default).th
      ∧ ((greedy_nms_inplace (1/2) [W0, W1]).getD i default).obj
          = (([W0, W1] : List Detection).getD i default).obj
      ∧ ((greedy_nms_inplace (1/2) [W0, W1]).getD i default).classes.length
          = (([W0, W1] : List Detection).getD i default).classes.length
      ∧ ∀ c, rowVal (greedy_nms_inplace (1/2) [W0, W1]) i c = rowVal [W0, W1] i c
          ∨ rowVal (greedy_nms_inplace (1/2) [W0, W1]) i c = 0) :=
  ⟨by norm_num [W0, W1],
    greedy_frame (1/2) 2 [W0, W1] (by norm_num [W0, W1])⟩

/-- Witness for C7 at a configuration with an unknown suppression kind. -/
theorem dispatch_unknown_kind_noop_witness :
    (YoloLayer.mk 1 (1/2)).nms_kind ≠ GREEDY_NMS
  ∧ run_nms_inplace [W0] (YoloLayer.mk 1 (1/2)) = [W0] :=
  ⟨by decide, dispatch_unknown_kind_noop [W0] (YoloLayer.mk 1 (1/2)) (by decide)⟩

/-- Witness for C10: snapshot `[1/2]` against `DA` (which out-scores it)
and `DB` (which scores below it), both overlapping. -/
theorem greedy_snapshot_semantics_witness :
    (0 < ([(1:ℚ)/2] : List ℚ).length
      ∧ (∀ q ∈ [DA, DB], q.classes.length = ([(1:ℚ)/2] : List ℚ).length)
      ∧ 1 < ([DA, DB] : List Detection).length
      ∧ bbox_iou (toBox W0) (toBox (([DA, DB] : List Detection).getD 1 default)) > 1/2
      ∧ (([DA, DB] : List Detection).getD 1 default).classes.getD 0 0 <
          ([(1:ℚ)/2] : List ℚ).getD 0 0
      ∧ (0:Nat) < 1
      ∧ bbox_iou (toBox W0) (toBox (([DA, DB] : List Detection).getD 0 default)) > 1/2
      ∧ ([(1:ℚ)/2] : List ℚ).getD 0 0 <
          (([DA, DB] : List Detection).getD 0 default).classes.getD 0 0)
  ∧ (((maskOfRest (1/2) (toBox W0) [(1:ℚ)/2] [DA, DB]).getD 0 false = true ↔
        ∃ j, j < ([DA, DB] : List Detection).length ∧
          bbox_iou (toBox W0) (toBox (([DA, DB] : List Detection).getD j default)) > 1/2 ∧
          ([(1:ℚ)/2] : List ℚ).getD 0 0 <
            (([DA, DB] : List Detection).getD j default).classes.getD 0 0)
    ∧ (maskOfRest (1/2) (toBox W0) [(1:ℚ)/2] [DA, DB]).getD 0 false = true
    ∧ ((stepRest (1/2) (toBox W0) [(1:ℚ)/2] [DA, DB]).getD 1 default).classes.getD 0 0
        = 0) :=
  ⟨⟨by norm_num, by norm_num [DA, DB], by norm_num,
      by norm_num [W0, DB, bbox_iou, toBox], by norm_num [DB], by norm_num,
      by norm_num [W0, DA, bbox_iou, toBox], by norm_num [DA]⟩,
    greedy_snapshot_semantics (1/2) (toBox W0) [(1:ℚ)/2] [DA, DB] 0 0 1
      (by norm_num) (by norm_num [DA, DB]) (by norm_num)
      (by norm_num [W0, DB, bbox_iou, toBox]) (by norm_num [DB]) (by norm_num)
      (by norm_num [W0, DA, bbox_iou, toBox]) (by norm_num [DA])⟩
